import Mathlib

/-!
Shallow embedding of the mailbeads persistence and triage layer
(`internal/db/db.go`, `internal/db/schema.go`, `internal/beads/beads.go`,
`cmd/mb/triage.go` / `cmd/mb/show.go`, `internal/sync/sync.go`).

Rows of the SQLite tables are modelled as Lean structures, a database
state as lists of rows.  Nullable columns are `Option`-valued; columns
declared `NOT NULL` (and columns that the Go code always writes with a
plain string) are `String`-valued.  SQLite TEXT comparison is byte-wise
`memcmp` on UTF-8, which coincides with Lean's lexicographic `String`
order, so date strings are compared with `≤`/`<` directly.  SQLite's
default `LIKE` (no `case_sensitive_like` pragma is set anywhere in the
repository) folds only the ASCII letters A-Z; `likeMatch` below
implements exactly that semantics.
-/

namespace Mailbeads

/-- Row of the `emails` table (`internal/db/schema.go`, `types.Email`).
`message_id`, `to_addr`, `cc`, `snippet`, `body`, `labels` are nullable in
the DDL but `InsertEmail` always writes the plain Go string, so they are
embedded as `String`. -/
structure Email where
  id : String
  account : String
  threadId : String
  messageId : String
  fromAddr : String
  toAddr : String
  cc : String
  subject : String
  snippet : String
  body : String
  date : String
  labels : String
  isRead : Nat
  fetchedAt : String
deriving DecidableEq, Repr

/-- Row of the v1 (self-contained) `triage` table, as read and written by
`internal/db/db.go`.  Fields written through `nullStr` (and columns the
INSERT omits) are `Option`-valued: `NULL` is `none`. -/
structure Triage where
  id : String
  threadId : String
  account : String
  subject : String
  fromAddr : Option String
  priority : String
  action : String
  suggestion : Option String
  agentNotes : Option String
  category : Option String
  status : String
  snoozedUntil : Option String
  emailCount : Nat
  latestDate : Option String
  createdAt : String
  updatedAt : Option String
deriving DecidableEq, Repr

/-- Row of the v1 `triage_deps` table: `triage_id` depends on
`depends_on_id` (used by `ReadyTriage`). -/
structure TriageDep where
  triageId : String
  dependsOnId : String
deriving DecidableEq, Repr

/-- Row of the v2 (cross-reference) `triage` table
(`internal/db/schema.go`, `types.TriageRef`). -/
structure TriageRef where
  threadId : String
  account : String
  beadId : String
  createdAt : String
deriving DecidableEq, Repr

/-- Aggregated thread view (`types.Thread`), produced by the grouping
queries; never stored. -/
structure Thread where
  threadId : String
  account : String
  subject : String
  fromAddr : String
  emailCount : Nat
  latestDate : String
  triageRef : Option TriageRef := none
deriving DecidableEq, Repr

/-- The v1-generation store: `emails`, fat `triage`, `triage_deps`. -/
structure DBState where
  emails : List Email
  triage : List Triage
  triageDeps : List TriageDep
deriving DecidableEq, Repr

/-- The v2-generation store: `emails` plus the slim cross-reference
table; the old `triage` and `triage_deps` relations do not exist in this
shape. -/
structure DBStateV2 where
  emails : List Email
  refs : List TriageRef
deriving DecidableEq, Repr

/-! ### SQLite string primitives -/

/-- SQLite TEXT comparison, non-strict: lexicographic on code points
(UTF-8 `memcmp` order coincides with code-point order). -/
def charsLe : List Char → List Char → Bool
  | [], _ => true
  | _ :: _, [] => false
  | a :: as, b :: bs => if a = b then charsLe as bs else decide (a < b)

/-- SQLite TEXT comparison, strict. -/
def charsLt : List Char → List Char → Bool
  | _, [] => false
  | [], _ :: _ => true
  | a :: as, b :: bs => if a = b then charsLt as bs else decide (a < b)

/-- String-level SQLite `<=`. -/
def strLe (a b : String) : Bool := charsLe a.data b.data

/-- String-level SQLite `<`. -/
def strLt (a b : String) : Bool := charsLt a.data b.data

/-- The larger of two strings in SQLite TEXT order. -/
def strMax (a b : String) : String := if strLe a b then b else a

/-- ASCII-only lower-casing, as done by SQLite's default `LIKE`. -/
def asciiLower (c : Char) : Char :=
  if 'A' ≤ c ∧ c ≤ 'Z' then Char.ofNat (c.toNat + 32) else c

/-- ASCII-lower-case every character of a character list. -/
def lowerL (l : List Char) : List Char := l.map asciiLower

/-- SQLite `LIKE` pattern matching: `%` matches any sequence, `_` any
single character, any other character matches ASCII-case-insensitively.
First argument is the pattern, second the candidate string.  A `%`
matches any suffix-consuming sequence, expressed through `suffixAny`,
which tests a predicate on every suffix of the candidate. -/
def suffixAny (f : List Char → Bool) : List Char → Bool
  | [] => f []
  | c :: cs => f (c :: cs) || suffixAny f cs

/-- See `suffixAny`: SQLite `LIKE` over pattern and candidate. -/
def likeMatch : List Char → List Char → Bool
  | [], s => s.isEmpty
  | p :: ps, s =>
    if p = '%' then suffixAny (likeMatch ps) s
    else
      match s with
      | [] => false
      | c :: cs =>
        if p = '_' then likeMatch ps cs
        else (asciiLower p = asciiLower c) && likeMatch ps cs

/-- Character-list version of "starts with" (plain, case-sensitive). -/
def listStarts : List Char → List Char → Bool
  | [], _ => true
  | _ :: _, [] => false
  | p :: ps, c :: cs => (p = c) && listStarts ps cs

/-- Character-list version of "occurs as a contiguous run" (plain,
case-sensitive). -/
def listContains (p : List Char) : List Char → Bool
  | [] => listStarts p []
  | c :: cs => listStarts p (c :: cs) || listContains p cs

/-- A pattern character is a wildcard for SQLite `LIKE`. -/
def isWild (c : Char) : Bool := c = '%' || c = '_'

/-! ### Message store operations (`internal/db/db.go`) -/

/-- Embedding of `InsertEmail`: `INSERT OR IGNORE INTO emails ...` keyed
by the primary key `id`.  A duplicate id leaves the table untouched and
is not an error (`OR IGNORE`); the Go function returns a `nil` error in
that case, so the embedding is a total function on states. -/
def insertEmail (s : DBState) (e : Email) : DBState :=
  if s.emails.any (fun x => x.id = e.id) then s
  else { s with emails := s.emails ++ [e] }

/-- Embedding of `ThreadAccounts`:
`SELECT DISTINCT account FROM emails WHERE thread_id = ?`. -/
def threadAccounts (s : DBState) (threadId : String) : List String :=
  ((s.emails.filter (fun e => e.threadId = threadId)).map (fun e => e.account)).dedup

/-! ### Thread aggregation -/

/-- Greatest element of a list of strings under SQLite TEXT ordering
(`MAX(...)` over a non-empty group; `""` is the identity seed). -/
def maxStr (l : List String) : String := l.foldl strMax ""

/-- The distinct `(thread_id, account)` grouping keys of a row set. -/
def threadKeys (es : List Email) : List (String × String) :=
  (es.map (fun e => (e.threadId, e.account))).dedup

/-- Aggregate one `(thread_id, account)` group, as computed by
`UntriagedThreads` / `ThreadInfo`:
`MAX(subject), MAX(from_addr), COUNT(id), MAX(date)`. -/
def threadAgg (es : List Email) (k : String × String) : Thread :=
  let ms := es.filter (fun e => e.threadId = k.1 ∧ e.account = k.2)
  { threadId := k.1
    account := k.2
    subject := maxStr (ms.map (fun e => e.subject))
    fromAddr := maxStr (ms.map (fun e => e.fromAddr))
    emailCount := ms.length
    latestDate := maxStr (ms.map (fun e => e.date)) }

/-- The rows visible to `UntriagedThreads` after its optional
`WHERE e.account = ?` filter (exact comparison, applied only when the
argument is non-empty). -/
def accFilter (es : List Email) (account : String) : List Email :=
  if account = "" then es else es.filter (fun e => e.account = account)

/-- The `HAVING t.id IS NULL OR t.latest_date < MAX(e.date)` clause of
`UntriagedThreads`.  The v1 `triage` table has at most one row per
`(thread_id, account)` pair, so the LEFT JOIN is embedded as `find?`.
A `NULL` `t.latest_date` makes the comparison `NULL`, hence not true. -/
def untriagedKeep (tr : List Triage) (th : Thread) : Bool :=
  match tr.find? (fun t => t.threadId = th.threadId ∧ t.account = th.account) with
  | none => true
  | some t =>
    match t.latestDate with
    | none => false
    | some d => strLt d th.latestDate

/-- Ordering used by `ORDER BY latest_date DESC`. -/
def dateGe (a b : Thread) : Prop := strLe b.latestDate a.latestDate = true

instance : DecidableRel dateGe := fun _ _ =>
  inferInstanceAs (Decidable (_ = true))

/-- The unlimited `UntriagedThreads` query (`internal/db/db.go`): group
the (account-filtered) emails by `(thread_id, account)` with a LEFT
JOIN to `triage`, keep groups with no triage row or a stale
`latest_date` snapshot, order by latest date descending. -/
def untriagedBase (s : DBState) (account : String) : List Thread :=
  List.insertionSort dateGe
    (((threadKeys (accFilter s.emails account)).map
        (threadAgg (accFilter s.emails account))).filter (untriagedKeep s.triage))

/-- Embedding of `UntriagedThreads`: the query above with the `LIMIT`
clause that is appended only when the limit is positive. -/
def untriagedThreads (s : DBState) (account : String) (limit : Int) : List Thread :=
  if 0 < limit then (untriagedBase s account).take limit.toNat
  else untriagedBase s account

/-- Embedding of `UntriagedCount` (`internal/db/db.go`):
`COUNT(DISTINCT e.thread_id || '|' || e.account)` over email rows whose
LEFT JOIN to `triage` produced no row (`WHERE t.id IS NULL`). -/
def untriagedCount (s : DBState) : Nat :=
  (((s.emails.filter (fun e =>
      ¬ s.triage.any (fun t => t.threadId = e.threadId ∧ t.account = e.account))).map
        (fun e => e.threadId ++ "|" ++ e.account)).dedup).length

/-! ### Triage ledger operations (v1 mode, `internal/db/db.go`) -/

/-- Structured view of the errors `db.go` returns from triage lookups
and of the ambiguous-account error in `cmd/mb/triage.go` /
`cmd/mb/show.go`: a not-found error, an ambiguous-ID error naming every
matching ID, a thread absent from `emails`, or a thread present under
several accounts (naming all of them). -/
inductive DBErr where
  | notFound (id : String)
  | ambiguousId (id : String) (ids : List String)
  | threadNotFound (threadId : String)
  | ambiguousAccount (threadId : String) (accounts : List String)
deriving DecidableEq, Repr

/-- Embedding of `GetTriage`: the row for a `(thread_id, account)` pair
(at most one exists under the v1 unique constraint; `QueryRow` yields
the first). -/
def getTriage (s : DBState) (threadId account : String) : Option Triage :=
  s.triage.find? (fun t => t.threadId = threadId ∧ t.account = account)

/-- Embedding of `getTriageByExactID`: `WHERE id = ?` (BINARY collation,
case-sensitive). -/
def getTriageByExactID (tr : List Triage) (id : String) : Option Triage :=
  tr.find? (fun t => t.id = id)

/-- Embedding of `GetTriageByID`: exact match first; otherwise
`WHERE id LIKE ?` with the pattern `id ++ "%"` (SQLite default `LIKE`,
ASCII-case-insensitive), then 0 matches is a not-found error, 1 match
is returned, and 2 or more is an ambiguous-ID error naming all
matching IDs. -/
def getTriageByID (tr : List Triage) (id : String) : Except DBErr Triage :=
  match getTriageByExactID tr id with
  | some t => .ok t
  | none =>
    match tr.filter (fun t => likeMatch (id ++ "%").data t.id.data) with
    | [] => .error (.notFound id)
    | [t] => .ok t
    | ms => .error (.ambiguousId id (ms.map (fun t => t.id)))

/-- The row produced by `UpsertTriage`'s UPDATE branch: mutable fields
are taken from the input, `status` is forced back to `'pending'`,
`updated_at` is set to now, and `id`, `created_at` and `snoozed_until`
are left untouched (they are not in the SET list). -/
def upsertUpdateRow (x t : Triage) (now : String) : Triage :=
  { x with
    subject := t.subject
    fromAddr := t.fromAddr
    priority := t.priority
    action := t.action
    suggestion := t.suggestion
    agentNotes := t.agentNotes
    category := t.category
    emailCount := t.emailCount
    latestDate := t.latestDate
    updatedAt := some now
    status := "pending" }

/-- The row produced by `UpsertTriage`'s INSERT branch: a fresh id
(`GenID()`, passed in as `genId`), `created_at = now`,
`status = 'pending'`; `snoozed_until` and `updated_at` are not in the
column list, hence `NULL`. -/
def upsertInsertRow (t : Triage) (genId now : String) : Triage :=
  { t with
    id := genId
    createdAt := now
    status := "pending"
    snoozedUntil := none
    updatedAt := none }

/-- Embedding of `UpsertTriage`.  The random `GenID()` and the clock
`Now()` are oracles passed as arguments.  Returns the new state and the
`created` flag: `false` when an existing `(thread_id, account)` row was
updated in place, `true` when a fresh row was inserted. -/
def upsertTriage (s : DBState) (t : Triage) (genId now : String) : DBState × Bool :=
  match getTriage s t.threadId t.account with
  | some ex =>
    ({ s with
        triage := s.triage.map (fun x =>
          if x.id = ex.id then upsertUpdateRow x t now else x) },
      false)
  | none =>
    ({ s with triage := s.triage ++ [upsertInsertRow t genId now] }, true)

/-- The `WHERE` clause of `ReadyTriage` for one row: status pending,
snooze empty or elapsed (string comparison against `datetime('now')`,
passed in as `now`; a `NULL` comparison is not true), no dependency row
joins to a blocker that is still pending, and the optional
`account LIKE '%' || a || '%'` filter. -/
def readyKeep (s : DBState) (account now : String) (t : Triage) : Bool :=
  t.status = "pending" &&
  (match t.snoozedUntil with
   | none => true
   | some z => strLe z now) &&
  !(s.triageDeps.any (fun d =>
      d.triageId = t.id &&
      s.triage.any (fun b => b.id = d.dependsOnId && b.status = "pending"))) &&
  (account = "" || likeMatch ("%" ++ account ++ "%").data t.account.data)

/-- `CASE priority WHEN 'high' THEN 0 WHEN 'medium' THEN 1 WHEN 'low'
THEN 2 WHEN 'spam' THEN 3 END`; any other priority yields `NULL`. -/
def rankOf (p : String) : Option Nat :=
  if p = "high" then some 0
  else if p = "medium" then some 1
  else if p = "low" then some 2
  else if p = "spam" then some 3
  else none

/-- Ascending order on the priority rank with `NULL` first, as SQLite
sorts the bare `CASE` expression. -/
def optNatLeB : Option Nat → Option Nat → Bool
  | none, _ => true
  | some _, none => false
  | some a, some b => a ≤ b

/-- Descending order on `latest_date` with `NULL` last, as SQLite sorts
`t.latest_date DESC`. -/
def optStrGeB : Option String → Option String → Bool
  | _, none => true
  | none, some _ => false
  | some a, some b => strLe b a

/-- The `ORDER BY` of `ReadyTriage` (and `ListTriage`): priority rank
ascending, then `latest_date` descending. -/
def readyLe (a b : Triage) : Prop :=
  (if rankOf a.priority = rankOf b.priority
   then optStrGeB a.latestDate b.latestDate
   else optNatLeB (rankOf a.priority) (rankOf b.priority)) = true

instance : DecidableRel readyLe := fun _ _ =>
  inferInstanceAs (Decidable (_ = true))

/-- Embedding of `ReadyTriage` (`internal/db/db.go`): pending rows that
are not snoozed and not blocked by a still-pending direct dependency
(a self-join through `triage_deps`; no transitive traversal), with the
optional account substring filter, ordered by priority then date. -/
def readyTriage (s : DBState) (account now : String) : List Triage :=
  List.insertionSort readyLe (s.triage.filter (readyKeep s account now))

/-! ### Schema migration (`internal/db/schema.go`, `MigrationV2`) -/

/-- Embedding of the `INSERT INTO triage ... SELECT thread_id, account,
'legacy-' || id, created_at FROM triage_old WHERE status = 'pending'`
step of `MigrationV2`: every pending v1 row becomes one v2 ref whose
`bead_id` is the `legacy-` placeholder prefix followed by the old row
id; non-pending rows are dropped. -/
def migrationV2 (old : List Triage) : List TriageRef :=
  (old.filter (fun t => t.status = "pending")).map (fun t =>
    { threadId := t.threadId
      account := t.account
      beadId := "legacy-" ++ t.id
      createdAt := t.createdAt })

/-- On-disk shape of the triage relation found when opening a store:
either the v1 (self-contained) shape together with its dependency
relation, or the v2 (cross-reference) shape. -/
inductive DiskTriage where
  | v1 (rows : List Triage) (deps : List TriageDep)
  | v2 (refs : List TriageRef)
deriving Repr

/-- Modelled from the spec (section 4.5): the v2-generation `Open`
inspects the on-disk triage relation's column shape and, when it finds
the v1 shape, runs `MigrationV2` (whose DDL is in
`internal/db/schema.go`): the old relation is renamed aside, the v2
relation created, pending rows copied as placeholder refs, and the old
`triage` and `triage_deps` relations dropped — the resulting state has
only `emails` and `refs`.  The v2 `db.go` that performs the shape
sniffing is not under `src/`; the copy step itself is translated from
the `MigrationV2` SQL. -/
def openStore (emails : List Email) (disk : DiskTriage) : DBStateV2 :=
  match disk with
  | .v1 rows _ => { emails := emails, refs := migrationV2 rows }
  | .v2 refs => { emails := emails, refs := refs }

/-! ### Beads priority mapping (`internal/beads/beads.go`) -/

/-- Embedding of `PriorityToBeads`: the write path, producing the
numeric priority as a decimal string for the `bd` command line. -/
def PriorityToBeads (mbPriority : String) : String :=
  if mbPriority = "high" then "1"
  else if mbPriority = "medium" then "2"
  else if mbPriority = "low" then "3"
  else if mbPriority = "spam" then "4"
  else "2"

/-- Embedding of `PriorityFromBeads`: the read path, mapping the numeric
priority from the beads JSON back to a mailbeads priority string. -/
def PriorityFromBeads (bdPriority : Int) : String :=
  if bdPriority = 0 then "high"
  else if bdPriority = 1 then "high"
  else if bdPriority = 2 then "medium"
  else if bdPriority = 3 then "low"
  else if bdPriority = 4 then "spam"
  else "medium"

/-- Modelled from the spec (section 6): the Issue Tracker receives the
priority level as a decimal string on the `bd create -p` command line
and stores it as the number it denotes; this decoder interprets the
digit strings the write path can produce. -/
def beadsNumeral (s : String) : Int :=
  if s = "0" then 0
  else if s = "1" then 1
  else if s = "2" then 2
  else if s = "3" then 3
  else if s = "4" then 4
  else -1

/-! ### Account disambiguation (`cmd/mb/triage.go` lines 55-68 and the
identical switch in `cmd/mb/show.go` lines 34-48) -/

/-- Embedding of the account-resolution switch shared by `triageCmd`
and `showCmd`: with no explicit `--account`, look up
`ThreadAccounts(threadID)`; zero accounts is a not-found error, exactly
one is used, and more than one is an ambiguous-account error listing
all of them (never a default pick).  An explicit account is used
as given. -/
def resolveAccount (s : DBState) (threadId explicit : String) : Except DBErr String :=
  if explicit ≠ "" then .ok explicit
  else
    match threadAccounts s threadId with
    | [] => .error (.threadNotFound threadId)
    | [a] => .ok a
    | accounts => .error (.ambiguousAccount threadId accounts)

/-! ### Staleness detection (v2 mode) -/

/-- Most recent `fetched_at` of a `(thread_id, account)` group (the
`MAX(e.fetched_at)` aggregate the staleness query compares against the
ref's `created_at`). -/
def maxFetched (es : List Email) (threadId account : String) : String :=
  maxStr ((es.filter (fun e => e.threadId = threadId ∧ e.account = account)).map
    (fun e => e.fetchedAt))

/-- Modelled from the spec (section 4.4): one row of
`threadsWithNewMail()` — a thread group is emitted when it has a
triage ref and its most recent message `fetched_at` is strictly newer
than the ref's `created_at`; the emitted thread carries its ref (the
sync code reads `t.TriageRef`). -/
def newMailRow (s : DBStateV2) (k : String × String) : Option Thread :=
  match s.refs.find? (fun r => r.threadId = k.1 ∧ r.account = k.2) with
  | none => none
  | some r =>
    if strLt r.createdAt (maxFetched s.emails k.1 k.2) then
      some { threadAgg s.emails k with triageRef := some r }
    else none

/-- Modelled from the spec (section 4.4): `threadsWithNewMail()` /
`ThreadsWithNewEmails` — consumed by `notifyNewEmails` in
`internal/sync/sync.go`, but itself part of the v2 `db.go` that is not
under `src/` — returns the threads that have a triage ref and whose
most recent message `fetched_at` is strictly newer than the ref's
`created_at`. -/
def threadsWithNewEmails (s : DBStateV2) : List Thread :=
  (threadKeys s.emails).filterMap (newMailRow s)

/-! ### Concrete states used by witnesses and counterexamples -/

/-- Email-row builder for concrete test states. -/
def mkEmail (id account threadId date fetchedAt : String) : Email :=
  { id := id, account := account, threadId := threadId, messageId := ""
    fromAddr := "sender@s.com", toAddr := "", cc := "", subject := "subj"
    snippet := "", body := "", date := date, labels := "", isRead := 0
    fetchedAt := fetchedAt }

/-- Triage-row builder for concrete test states. -/
def mkTriage (id threadId account status : String) (latestDate : Option String) : Triage :=
  { id := id, threadId := threadId, account := account, subject := "subj"
    fromAddr := none, priority := "medium", action := "act", suggestion := none
    agentNotes := none, category := none, status := status, snoozedUntil := none
    emailCount := 1, latestDate := latestDate, createdAt := "2024-01-01T00:00:00Z"
    updatedAt := none }

/-- A store holding one thread whose triage snapshot predates its latest
mail: the thread is triaged yet `UntriagedThreads` reports it. -/
def exStale : DBState :=
  { emails := [mkEmail "m1" "a@x.com" "t1" "2024-02-01T00:00:00Z" "2024-02-01T01:00:00Z"]
    triage := [mkTriage "x1" "t1" "a@x.com" "done" (some "2024-01-01T00:00:00Z")]
    triageDeps := [] }

/-- A store whose thread identifiers contain the `'|'` separator that
`UntriagedCount` uses to encode `(thread_id, account)` pairs: two
distinct untriaged pairs collide to one encoded string. -/
def exBar : DBState :=
  { emails :=
      [mkEmail "m1" "c" "a|b" "2024-02-01T00:00:00Z" "2024-02-01T01:00:00Z",
       mkEmail "m2" "b|c" "a" "2024-02-01T00:00:00Z" "2024-02-01T01:00:00Z"]
    triage := []
    triageDeps := [] }

/-- A single v1 triage row with the lower-case hex id `GenID` produces. -/
def cRec : Triage := mkTriage "abc123" "t1" "a@x.com" "pending" none

/-- Two v1 triage rows sharing the prefix `abc`. -/
def cTr2 : List Triage :=
  [mkTriage "abc123" "t1" "a@x.com" "pending" none,
   mkTriage "abc456" "t2" "a@x.com" "pending" none]

/-- A store with one existing pending triage row for thread `t1`. -/
def sUp : DBState :=
  { emails := [], triage := [mkTriage "x1" "t1" "a@x.com" "done" none], triageDeps := [] }

/-- Input record handed to `UpsertTriage` in the witnesses. -/
def tIn : Triage := mkTriage "ignored" "t1" "a@x.com" "ignored" (some "2024-02-01T00:00:00Z")

/-- A store with one pending, unsnoozed, unblocked triage row. -/
def sReady : DBState :=
  { emails := [], triage := [mkTriage "r1" "t1" "a@x.com" "pending" none], triageDeps := [] }

/-- A v2 store with one triaged thread that received mail after the ref
was created. -/
def sNew : DBStateV2 :=
  { emails := [mkEmail "m1" "a@x.com" "t1" "2024-02-01T00:00:00Z" "2024-02-02T00:00:00Z"]
    refs := [{ threadId := "t1", account := "a@x.com", beadId := "bd-1"
               createdAt := "2024-01-15T00:00:00Z" }] }

/-- A store in which thread `t9` appears under two different accounts. -/
def sTwoAcc : DBState :=
  { emails :=
      [mkEmail "m1" "a@x.com" "t9" "2024-02-01T00:00:00Z" "2024-02-01T01:00:00Z",
       mkEmail "m2" "b@y.com" "t9" "2024-02-01T00:00:00Z" "2024-02-01T01:00:00Z"]
    triage := []
    triageDeps := [] }

/-! ### Helper lemmas -/

/-- SQLite TEXT order is total. -/
theorem charsLe_total : ∀ x y : List Char, charsLe x y = true ∨ charsLe y x = true
  | [], _ => Or.inl rfl
  | _ :: _, [] => Or.inr rfl
  | a :: as, b :: bs => by
    by_cases hab : a = b
    · subst hab
      rcases charsLe_total as bs with h | h
      · left
        unfold charsLe
        rw [if_pos rfl]
        exact h
      · right
        unfold charsLe
        rw [if_pos rfl]
        exact h
    · rcases lt_trichotomy a b with h | h | h
      · left
        unfold charsLe
        rw [if_neg hab]
        simpa using h
      · exact absurd h hab
      · right
        unfold charsLe
        rw [if_neg (Ne.symm hab)]
        simpa using h

/-- SQLite TEXT order is transitive. -/
theorem charsLe_trans : ∀ x y z : List Char,
    charsLe x y = true → charsLe y z = true → charsLe x z = true
  | [], _, _, _, _ => rfl
  | _ :: _, [], _, h1, _ => by simp [charsLe] at h1
  | _ :: _, _ :: _, [], _, h2 => by simp [charsLe] at h2
  | a :: as, b :: bs, c :: cs, h1, h2 => by
    unfold charsLe at h1 h2 ⊢
    by_cases hab : a = b
    · subst hab
      rw [if_pos rfl] at h1
      by_cases hac : a = c
      · subst hac
        rw [if_pos rfl] at h2
        rw [if_pos rfl]
        exact charsLe_trans as bs cs h1 h2
      · rw [if_neg hac] at h2 ⊢
        exact h2
    · rw [if_neg hab] at h1
      have hlt1 : a < b := by simpa using h1
      by_cases hbc : b = c
      · subst hbc
        rw [if_neg hab]
        simpa using hlt1
      · rw [if_neg hbc] at h2
        have hlt2 : b < c := by simpa using h2
        have hac : a < c := lt_trans hlt1 hlt2
        rw [if_neg (ne_of_lt hac)]
        simpa using hac

/-- A predicate true on the empty suffix makes `suffixAny` true. -/
theorem suffixAny_of_nilTrue (f : List Char → Bool) (h : f [] = true) :
    ∀ s, suffixAny f s = true
  | [] => h
  | c :: cs => by
    rw [suffixAny, suffixAny_of_nilTrue f h cs]
    simp

/-- A lone `%` pattern matches every string. -/
theorem likeMatch_pc (s : List Char) : likeMatch ['%'] s = true := by
  rw [show likeMatch ['%'] s = suffixAny (likeMatch []) s from rfl]
  exact suffixAny_of_nilTrue _ rfl s

/-- On a wildcard-free pattern, `LIKE` with a trailing `%` is exactly an
ASCII-case-insensitive "starts with" test. -/
theorem likeMatch_startPat : ∀ (p : List Char), (∀ c ∈ p, isWild c = false) →
    ∀ s : List Char, likeMatch (p ++ ['%']) s = listStarts (lowerL p) (lowerL s)
  | [], _, s => by
    simp only [List.nil_append, likeMatch_pc, lowerL, List.map_nil, listStarts]
  | a :: as, hp, s => by
    have ha : ¬ (a = '%') ∧ ¬ (a = '_') := by
      have := hp a (by simp)
      unfold isWild at this
      constructor <;> intro h <;> simp [h] at this
    have hrest : ∀ c ∈ as, isWild c = false := fun c hc => hp c (by simp [hc])
    cases s with
    | nil =>
      rw [List.cons_append,
        show likeMatch (a :: (as ++ ['%'])) []
          = if a = '%' then suffixAny (likeMatch (as ++ ['%'])) [] else false from rfl,
        if_neg ha.1]
      simp [lowerL, listStarts]
    | cons c cs =>
      rw [List.cons_append,
        show likeMatch (a :: (as ++ ['%'])) (c :: cs)
          = if a = '%' then suffixAny (likeMatch (as ++ ['%'])) (c :: cs)
            else if a = '_' then likeMatch (as ++ ['%']) cs
            else (asciiLower a = asciiLower c) && likeMatch (as ++ ['%']) cs from rfl,
        if_neg ha.1, if_neg ha.2, likeMatch_startPat as hrest cs]
      simp [lowerL, listStarts]

/-- On a wildcard-free pattern, `LIKE` with a leading and a trailing `%`
is exactly an ASCII-case-insensitive "occurs somewhere" test. -/
theorem likeMatch_containPat (p : List Char) (hp : ∀ c ∈ p, isWild c = false) :
    ∀ s : List Char, likeMatch ('%' :: (p ++ ['%'])) s = listContains (lowerL p) (lowerL s)
  | [] => by
    rw [show likeMatch ('%' :: (p ++ ['%'])) [] = likeMatch (p ++ ['%']) [] from rfl,
      likeMatch_startPat p hp]
    simp [lowerL, listContains]
  | c :: cs => by
    rw [show likeMatch ('%' :: (p ++ ['%'])) (c :: cs)
        = (likeMatch (p ++ ['%']) (c :: cs) || suffixAny (likeMatch (p ++ ['%'])) cs) from rfl,
      show suffixAny (likeMatch (p ++ ['%'])) cs = likeMatch ('%' :: (p ++ ['%'])) cs from rfl,
      likeMatch_containPat p hp cs, likeMatch_startPat p hp]
    simp [lowerL, listContains]

/-- Mapping a function that does not change the predicate's verdict
commutes with `find?`. -/
theorem find_map_same (p : α → Bool) (f : α → α) (hf : ∀ x, p (f x) = p x) :
    ∀ l : List α, (l.map f).find? p = (l.find? p).map f
  | [] => rfl
  | x :: xs => by
    by_cases hx : p x
    · rw [List.map_cons, List.find?_cons_of_pos _ (by rw [hf]; exact hx),
        List.find?_cons_of_pos _ hx]
      rfl
    · rw [List.map_cons, List.find?_cons_of_neg _ (by rw [hf]; exact hx),
        List.find?_cons_of_neg _ hx, find_map_same p f hf xs]

/-- In a list whose keys are pairwise distinct, `find?` on the key of a
member returns exactly that member. -/
theorem find_key_of_nodup {κ : Type} [DecidableEq κ] (key : α → κ) :
    ∀ {l : List α}, (l.map key).Nodup → ∀ {x : α}, x ∈ l →
      l.find? (fun y => key y = key x) = some x
  | [], _, _, hx => by simp at hx
  | a :: as, hN, x, hx => by
    have hN2 : (∀ y ∈ as, ¬ key y = key a) ∧ (as.map key).Nodup := by
      simpa using hN
    by_cases hk : key a = key x
    · rw [List.find?_cons_of_pos _ (by simpa using hk)]
      rcases List.mem_cons.mp hx with h | h
      · rw [h]
      · exact absurd hk.symm (hN2.1 x h)
    · rw [List.find?_cons_of_neg _ (by simpa using hk)]
      rcases List.mem_cons.mp hx with h | h
      · exact absurd (h ▸ rfl) hk
      · exact find_key_of_nodup key hN2.2 h

/-- A nonempty constant list dedups to a singleton. -/
theorem dedup_const [DecidableEq α] :
    ∀ {l : List α} {a : α}, (∀ x ∈ l, x = a) → l ≠ [] → l.dedup = [a]
  | [], _, _, hne => absurd rfl hne
  | [x], a, h, _ => by rw [h x (by simp)]; rfl
  | x :: y :: ys, a, h, _ => by
    have hx : x = a := h x (by simp)
    have htl : ∀ z ∈ y :: ys, z = a := fun z hz => h z (by simp [hz])
    have hmem : x ∈ y :: ys := by
      rw [hx, show y = a from htl y (by simp)]; simp
    rw [List.dedup_cons_of_mem hmem]
    exact dedup_const htl (by simp)

/-- Deduplicating after mapping an injective-on-the-list function keeps
the same number of elements as deduplicating first. -/
theorem dedup_map_length [DecidableEq α] [DecidableEq β] (f : α → β) :
    ∀ l : List α, (∀ a ∈ l, ∀ b ∈ l, f a = f b → a = b) →
      ((l.map f).dedup).length = (l.dedup).length
  | [], _ => rfl
  | x :: xs, hinj => by
    have hiff : f x ∈ xs.map f ↔ x ∈ xs := by
      constructor
      · intro h
        rcases List.mem_map.mp h with ⟨a, ha, hfa⟩
        exact (hinj a (by simp [ha]) x (by simp) hfa) ▸ ha
      · intro h
        exact List.mem_map_of_mem f h
    have htl : ∀ a ∈ xs, ∀ b ∈ xs, f a = f b → a = b :=
      fun a ha b hb => hinj a (by simp [ha]) b (by simp [hb])
    by_cases hx : x ∈ xs
    · rw [List.map_cons, List.dedup_cons_of_mem (hiff.mpr hx),
        List.dedup_cons_of_mem hx]
      exact dedup_map_length f xs htl
    · rw [List.map_cons, List.dedup_cons_of_not_mem (fun h => hx (hiff.mp h)),
        List.dedup_cons_of_not_mem hx]
      simpa using dedup_map_length f xs htl

/-- Splitting two equal lists at a separator absent from both left
parts identifies the parts. -/
theorem sep_split (sep : Char) :
    ∀ (l1 : List Char) {r1 l2 r2 : List Char}, sep ∉ l1 → sep ∉ l2 →
      l1 ++ sep :: r1 = l2 ++ sep :: r2 → l1 = l2 ∧ r1 = r2
  | [], r1, l2, r2, _, h2, heq => by
    cases l2 with
    | nil => simpa using heq
    | cons y ys =>
      simp only [List.nil_append, List.cons_append, List.cons.injEq] at heq
      exact absurd (heq.1 ▸ List.mem_cons_self y ys) h2
  | x :: xs, r1, l2, r2, h1, h2, heq => by
    cases l2 with
    | nil =>
      simp only [List.cons_append, List.nil_append, List.cons.injEq] at heq
      exact absurd (heq.1 ▸ List.mem_cons_self x xs) h1
    | cons y ys =>
      simp only [List.cons_append, List.cons.injEq] at heq
      have := sep_split sep xs (fun h => h1 (by simp [h]))
        (fun h => h2 (by simp [h])) heq.2
      exact ⟨by rw [heq.1, this.1], this.2⟩

/-- Concatenating `thread_id ++ "|" ++ account` is injective as long as
the thread id does not contain the separator. -/
theorem barEncode_inj {t1 a1 t2 a2 : String}
    (h1 : '|' ∉ t1.data) (h2 : '|' ∉ t2.data)
    (heq : t1 ++ "|" ++ a1 = t2 ++ "|" ++ a2) : t1 = t2 ∧ a1 = a2 := by
  have hd : t1.data ++ '|' :: a1.data = t2.data ++ '|' :: a2.data := by
    have := congrArg String.data heq
    simpa [String.data_append] using this
  have := sep_split '|' t1.data h1 h2 hd
  exact ⟨String.ext this.1, String.ext this.2⟩

/-- Membership in the grouping keys is existence of a matching email. -/
theorem mem_threadKeys {es : List Email} {k : String × String} :
    k ∈ threadKeys es ↔ ∃ e ∈ es, e.threadId = k.1 ∧ e.account = k.2 := by
  unfold threadKeys
  rw [List.mem_dedup, List.mem_map]
  constructor
  · rintro ⟨e, he, hk⟩
    exact ⟨e, he, by rw [← hk], by rw [← hk]⟩
  · rintro ⟨e, he, h1, h2⟩
    exact ⟨e, he, by rw [h1, h2]⟩

theorem threadAgg_threadId (es : List Email) (k : String × String) :
    (threadAgg es k).threadId = k.1 := rfl

theorem threadAgg_account (es : List Email) (k : String × String) :
    (threadAgg es k).account = k.2 := rfl

/-! ### Claim theorems -/

/-- Claim C2: opening a store whose triage relation is in the v1
(self-contained) shape performs the v1-to-v2 migration — every pending
v1 record yields exactly one v2 ref whose external id is the
placeholder prefix `legacy-` followed by the original record id; every
non-pending record yields no ref; and the resulting store consists only
of `emails` and `refs` (the old `triage` and `triage_deps` relations
are dropped by the final `DROP TABLE` statements, reflected here by the
`DBStateV2` shape of the result). -/
theorem migrationV2_pending_only (emails : List Email) (rows : List Triage)
    (deps : List TriageDep) :
    (openStore emails (.v1 rows deps)).refs = migrationV2 rows
    ∧ (∀ r : TriageRef, r ∈ migrationV2 rows ↔ ∃ t ∈ rows, t.status = "pending"
        ∧ r = { threadId := t.threadId, account := t.account,
                beadId := "legacy-" ++ t.id, createdAt := t.createdAt })
    ∧ (migrationV2 rows).length = (rows.filter (fun t => t.status = "pending")).length
    ∧ (openStore emails (.v1 rows deps)).emails = emails := by
  refine ⟨rfl, ?_, ?_, rfl⟩
  · intro r
    unfold migrationV2
    rw [List.mem_map]
    constructor
    · rintro ⟨t, ht, hr⟩
      rw [List.mem_filter] at ht
      exact ⟨t, ht.1, by simpa using ht.2, hr.symm⟩
    · rintro ⟨t, ht, hs, hr⟩
      exact ⟨t, List.mem_filter.mpr ⟨ht, by simpa using hs⟩, hr.symm⟩
  · unfold migrationV2
    rw [List.length_map]

/-- Claim C3: inserting a message whose id is fresh and then inserting
any message carrying the same id leaves exactly one row keyed by that
id, holding the first-inserted content; the duplicate insert is a
no-op (and `INSERT OR IGNORE` reports no error). -/
theorem insertEmail_idempotent (s : DBState) (m d : Email) (hid : d.id = m.id)
    (hfresh : ∀ e ∈ s.emails, e.id ≠ m.id) :
    insertEmail (insertEmail s m) d = insertEmail s m
    ∧ (insertEmail (insertEmail s m) d).emails.filter (fun e => e.id = m.id) = [m] := by
  have h1 : s.emails.any (fun x => x.id = m.id) = false := by
    rw [List.any_eq_false]
    intro x hx
    simpa using hfresh x hx
  have hins : insertEmail s m = { s with emails := s.emails ++ [m] } := by
    unfold insertEmail
    rw [h1]
    simp
  have h2 : (s.emails ++ [m]).any (fun x => x.id = d.id) = true := by
    rw [List.any_eq_true]
    exact ⟨m, by simp, by simp [hid]⟩
  have hnoop : insertEmail (insertEmail s m) d = insertEmail s m := by
    rw [hins]
    unfold insertEmail
    simp only [h2]
    simp
  refine ⟨hnoop, ?_⟩
  rw [hnoop, hins]
  simp only [List.filter_append]
  have hl : s.emails.filter (fun e => e.id = m.id) = [] := by
    rw [List.filter_eq_nil_iff]
    intro e he
    simpa using hfresh e he
  rw [hl]
  simp

/-- Witness for claim C3 at a concrete store: a fresh insert followed
by a duplicate insert with different content leaves the single
first-inserted row. -/
theorem insertEmail_idempotent_witness :
    insertEmail (insertEmail { emails := [], triage := [], triageDeps := [] }
        (mkEmail "m1" "a@x.com" "t1" "2024-01-01T00:00:00Z" "2024-01-02T00:00:00Z"))
        (mkEmail "m1" "b@y.com" "t2" "2024-03-01T00:00:00Z" "2024-03-02T00:00:00Z")
      = insertEmail { emails := [], triage := [], triageDeps := [] }
        (mkEmail "m1" "a@x.com" "t1" "2024-01-01T00:00:00Z" "2024-01-02T00:00:00Z") :=
  (insertEmail_idempotent { emails := [], triage := [], triageDeps := [] }
    (mkEmail "m1" "a@x.com" "t1" "2024-01-01T00:00:00Z" "2024-01-02T00:00:00Z")
    (mkEmail "m1" "b@y.com" "t2" "2024-03-01T00:00:00Z" "2024-03-02T00:00:00Z")
    (by decide) (by decide)).1

/-- Claim C9: the priority mapping is fixed — on the write path high,
medium, low, spam map to the numerals 1-4 with 2 as the default for
any other input; on the read path 0 and 1 both map to high, 2 to
medium, 3 to low, 4 to spam; read-after-write is the identity on the
four named priorities; and the write path never produces 0. -/
theorem priorityMapping_fixed :
    (PriorityToBeads "high" = "1" ∧ PriorityToBeads "medium" = "2"
      ∧ PriorityToBeads "low" = "3" ∧ PriorityToBeads "spam" = "4")
    ∧ (∀ p : String, p ≠ "high" → p ≠ "medium" → p ≠ "low" → p ≠ "spam" →
        PriorityToBeads p = "2")
    ∧ (PriorityFromBeads 0 = "high" ∧ PriorityFromBeads 1 = "high"
      ∧ PriorityFromBeads 2 = "medium" ∧ PriorityFromBeads 3 = "low"
      ∧ PriorityFromBeads 4 = "spam")
    ∧ (∀ p : String, (p = "high" ∨ p = "medium" ∨ p = "low" ∨ p = "spam") →
        PriorityFromBeads (beadsNumeral (PriorityToBeads p)) = p)
    ∧ (∀ p : String, PriorityToBeads p ≠ "0") := by
  refine ⟨by decide, ?_, by decide, ?_, ?_⟩
  · intro p h1 h2 h3 h4
    unfold PriorityToBeads
    rw [if_neg h1, if_neg h2, if_neg h3, if_neg h4]
  · rintro p (rfl | rfl | rfl | rfl) <;> decide
  · intro p
    unfold PriorityToBeads
    split_ifs <;> decide

/-- Witness for claim C9: the default branch of the write path maps an
unknown priority to the numeral 2. -/
theorem priorityMapping_fixed_witness : PriorityToBeads "urgent" = "2" :=
  priorityMapping_fixed.2.1 "urgent" (by decide) (by decide) (by decide) (by decide)

/-- Claim C8: with no explicit account, a thread id present under two
or more accounts yields an ambiguous-account error listing exactly the
accounts the thread appears under (never a default pick); exactly one
matching account is used; no matching account is a not-found error. -/
theorem resolveAccount_disambiguation (s : DBState) (tid : String) :
    ((∃ e1 ∈ s.emails, ∃ e2 ∈ s.emails, e1.threadId = tid ∧ e2.threadId = tid
        ∧ e1.account ≠ e2.account) →
      ∃ l, resolveAccount s tid "" = .error (.ambiguousAccount tid l)
        ∧ ∀ x, (x ∈ l ↔ ∃ e ∈ s.emails, e.threadId = tid ∧ e.account = x))
    ∧ (∀ e1 ∈ s.emails, e1.threadId = tid →
        (∀ e ∈ s.emails, e.threadId = tid → e.account = e1.account) →
        resolveAccount s tid "" = .ok e1.account)
    ∧ ((∀ e ∈ s.emails, e.threadId ≠ tid) →
        resolveAccount s tid "" = .error (.threadNotFound tid)) := by
  have hmem : ∀ x, x ∈ threadAccounts s tid ↔
      ∃ e ∈ s.emails, e.threadId = tid ∧ e.account = x := by
    intro x
    unfold threadAccounts
    rw [List.mem_dedup, List.mem_map]
    constructor
    · rintro ⟨e, he, hx⟩
      rw [List.mem_filter] at he
      exact ⟨e, he.1, by simpa using he.2, hx⟩
    · rintro ⟨e, he, ht, ha⟩
      exact ⟨e, List.mem_filter.mpr ⟨he, by simpa using ht⟩, ha⟩
  refine ⟨?_, ?_, ?_⟩
  · rintro ⟨e1, he1, e2, he2, ht1, ht2, hne⟩
    have hm1 : e1.account ∈ threadAccounts s tid := (hmem _).mpr ⟨e1, he1, ht1, rfl⟩
    have hm2 : e2.account ∈ threadAccounts s tid := (hmem _).mpr ⟨e2, he2, ht2, rfl⟩
    rcases hL : threadAccounts s tid with _ | ⟨x, _ | ⟨y, rest⟩⟩
    · rw [hL] at hm1
      simp at hm1
    · rw [hL] at hm1 hm2
      simp only [List.mem_singleton] at hm1 hm2
      exact absurd (hm1.trans hm2.symm) hne
    · refine ⟨x :: y :: rest, ?_, ?_⟩
      · unfold resolveAccount
        rw [if_neg (by simp), hL]
      · intro a
        rw [← hL]
        exact hmem a
  · intro e1 he1 ht1 hall
    have hL : threadAccounts s tid = [e1.account] := by
      unfold threadAccounts
      refine dedup_const ?_ ?_
      · intro x hx
        rcases List.mem_map.mp hx with ⟨e, he, ha⟩
        rw [List.mem_filter] at he
        rw [← ha]
        exact hall e he.1 (by simpa using he.2)
      · intro hnil
        have : e1.account ∈ ([] : List String) := by
          rw [← hnil]
          exact List.mem_map_of_mem _ (List.mem_filter.mpr ⟨he1, by simpa using ht1⟩)
        simp at this
    unfold resolveAccount
    rw [if_neg (by simp), hL]
  · intro hnone
    have hL : threadAccounts s tid = [] := by
      unfold threadAccounts
      have : s.emails.filter (fun e => e.threadId = tid) = [] := by
        rw [List.filter_eq_nil_iff]
        intro e he
        simpa using hnone e he
      rw [this]
      rfl
    unfold resolveAccount
    rw [if_neg (by simp), hL]

/-- Witness for claim C8: thread `t9` lives under two accounts, so
resolution with no explicit account is ambiguous and lists both
accounts; an unknown thread id is a not-found error. -/
theorem resolveAccount_disambiguation_witness :
    (∃ l, resolveAccount sTwoAcc "t9" "" = Except.error (DBErr.ambiguousAccount "t9" l)
      ∧ ∀ x, (x ∈ l ↔ ∃ e ∈ sTwoAcc.emails, e.threadId = "t9" ∧ e.account = x))
    ∧ resolveAccount sTwoAcc "zz" "" = Except.error (DBErr.threadNotFound "zz") :=
  ⟨(resolveAccount_disambiguation sTwoAcc "t9").1
      ⟨mkEmail "m1" "a@x.com" "t9" "2024-02-01T00:00:00Z" "2024-02-01T01:00:00Z", by decide,
       mkEmail "m2" "b@y.com" "t9" "2024-02-01T00:00:00Z" "2024-02-01T01:00:00Z", by decide,
       by decide, by decide, by decide⟩,
   (resolveAccount_disambiguation sTwoAcc "zz").2.2 (by decide)⟩

/-- Claim C5: on a thread that already has a triage record in any
status, `UpsertTriage` updates the mutable fields in place, forces the
status back to pending, preserves the original id and `created_at`,
sets `updated_at`, and reports that no record was created; on a thread
with no record it inserts one with the freshly generated id,
`created_at = now`, status pending, and reports creation. -/
theorem upsertTriage_semantics (s : DBState) (t : Triage) (genId now : String) :
    (∀ ex, getTriage s t.threadId t.account = some ex →
      (upsertTriage s t genId now).2 = false
      ∧ getTriage (upsertTriage s t genId now).1 t.threadId t.account
          = some (upsertUpdateRow ex t now)
      ∧ (upsertUpdateRow ex t now).id = ex.id
      ∧ (upsertUpdateRow ex t now).createdAt = ex.createdAt
      ∧ (upsertUpdateRow ex t now).status = "pending"
      ∧ (upsertUpdateRow ex t now).updatedAt = some now
      ∧ (upsertUpdateRow ex t now).priority = t.priority
      ∧ (upsertUpdateRow ex t now).action = t.action
      ∧ (upsertUpdateRow ex t now).subject = t.subject
      ∧ (upsertTriage s t genId now).1.triage.length = s.triage.length)
    ∧ (getTriage s t.threadId t.account = none →
      (upsertTriage s t genId now).2 = true
      ∧ (upsertTriage s t genId now).1.triage = s.triage ++ [upsertInsertRow t genId now]
      ∧ (upsertInsertRow t genId now).id = genId
      ∧ (upsertInsertRow t genId now).createdAt = now
      ∧ (upsertInsertRow t genId now).status = "pending"
      ∧ (upsertInsertRow t genId now).threadId = t.threadId
      ∧ (upsertInsertRow t genId now).account = t.account) := by
  constructor
  · intro ex hex
    have hU : upsertTriage s t genId now =
        ({ s with triage := s.triage.map (fun x =>
            if x.id = ex.id then upsertUpdateRow x t now else x) }, false) := by
      unfold upsertTriage
      rw [hex]
    have hf : ∀ x : Triage,
        (fun y : Triage => decide (y.threadId = t.threadId ∧ y.account = t.account))
          ((fun x => if x.id = ex.id then upsertUpdateRow x t now else x) x)
        = (fun y : Triage => decide (y.threadId = t.threadId ∧ y.account = t.account)) x := by
      intro x
      by_cases h : x.id = ex.id <;> simp [h, upsertUpdateRow]
    refine ⟨by rw [hU], ?_, rfl, rfl, rfl, rfl, rfl, rfl, rfl, by rw [hU]; simp⟩
    rw [hU]
    unfold getTriage at hex ⊢
    simp only
    rw [find_map_same _ _ hf, hex]
    simp
  · intro hnone
    have hU : upsertTriage s t genId now =
        ({ s with triage := s.triage ++ [upsertInsertRow t genId now] }, true) := by
      unfold upsertTriage
      rw [hnone]
    exact ⟨by rw [hU], by rw [hU], rfl, rfl, rfl, rfl, rfl⟩

/-- Witness for claim C5: re-triaging the done record of `sUp` keeps
its id `x1` and original `created_at`, resets the status to pending and
reports no creation; a fresh thread gets a new pending record. -/
theorem upsertTriage_semantics_witness :
    (upsertTriage sUp tIn "g1" "2024-03-01T00:00:00Z").2 = false
    ∧ getTriage (upsertTriage sUp tIn "g1" "2024-03-01T00:00:00Z").1 "t1" "a@x.com"
        = some (upsertUpdateRow (mkTriage "x1" "t1" "a@x.com" "done" none) tIn
            "2024-03-01T00:00:00Z") := by
  have h := (upsertTriage_semantics sUp tIn "g1" "2024-03-01T00:00:00Z").1
    (mkTriage "x1" "t1" "a@x.com" "done" none) (by decide)
  exact ⟨h.1, h.2.1⟩

/-- Claim C6: for every store state and wildcard-free account
substring, `ReadyTriage` returns exactly the triage records that are
pending, whose snooze-until is empty or already elapsed, and for which
no dependency row points to another record that is still pending —
only direct dependencies are consulted (the query is a self-join, not
a traversal), so a record whose direct blockers are all non-pending is
ready regardless of what its blockers themselves depoint to. -/
theorem readyTriage_charact (s : DBState) (acc now : String) (t : Triage)
    (hw : ∀ c ∈ acc.data, isWild c = false) :
    t ∈ readyTriage s acc now ↔
      t ∈ s.triage ∧ t.status = "pending"
      ∧ (t.snoozedUntil = none ∨ ∃ z, t.snoozedUntil = some z ∧ strLe z now = true)
      ∧ (∀ d ∈ s.triageDeps, d.triageId = t.id →
          ∀ b ∈ s.triage, b.id = d.dependsOnId → ¬ b.status = "pending")
      ∧ (acc = "" ∨ listContains (lowerL acc.data) (lowerL t.account.data) = true) := by
  have hdata : ("%" ++ acc ++ "%").data = '%' :: (acc.data ++ ['%']) := by
    simp [String.data_append]
  have hkeepIff : readyKeep s acc now t = true ↔
      (t.status = "pending"
       ∧ (t.snoozedUntil = none ∨ ∃ z, t.snoozedUntil = some z ∧ strLe z now = true)
       ∧ (∀ d ∈ s.triageDeps, d.triageId = t.id →
           ∀ b ∈ s.triage, b.id = d.dependsOnId → ¬ b.status = "pending")
       ∧ (acc = "" ∨ listContains (lowerL acc.data) (lowerL t.account.data) = true)) := by
    unfold readyKeep
    rw [hdata, likeMatch_containPat acc.data hw]
    cases hz : t.snoozedUntil with
    | none =>
      simp only [Bool.and_eq_true, Bool.or_eq_true, decide_eq_true_eq,
        Bool.not_eq_true', List.any_eq_false, Bool.and_eq_false_iff,
        List.any_eq_true, not_exists, not_and, reduceCtorEq, false_and,
        exists_false, or_false, true_and, false_or, and_true]
      tauto
    | some z =>
      simp only [Bool.and_eq_true, Bool.or_eq_true, decide_eq_true_eq,
        Bool.not_eq_true', List.any_eq_false, Bool.and_eq_false_iff,
        List.any_eq_true, not_exists, not_and, Option.some.injEq,
        reduceCtorEq, false_or, exists_eq_left']
      tauto
  unfold readyTriage
  rw [(List.perm_insertionSort readyLe _).mem_iff, List.mem_filter]
  constructor
  · rintro ⟨hmem, hkeep⟩
    exact ⟨hmem, hkeepIff.mp hkeep⟩
  · rintro ⟨hmem, hrest⟩
    exact ⟨hmem, hkeepIff.mpr hrest⟩

/-- Witness for claim C6: the pending, unsnoozed, unblocked record of
`sReady` is ready. -/
theorem readyTriage_charact_witness :
    mkTriage "r1" "t1" "a@x.com" "pending" none ∈ readyTriage sReady "" "2024-06-01T00:00:00Z" :=
  (readyTriage_charact sReady "" "2024-06-01T00:00:00Z"
      (mkTriage "r1" "t1" "a@x.com" "pending" none) (by decide)).mpr
    ⟨by decide, by decide, Or.inl rfl, by decide, Or.inl rfl⟩

/-- Claim C4 counterexample: the prefix resolution of `GetTriageByID`
is not case-sensitive.  With a single stored record `abc123`, the input
`ABC1` is a prefix of no stored id under case-sensitive comparison, so
the claim requires a not-found error — but SQLite's default `LIKE`
folds ASCII case, and the code returns the record. -/
theorem getTriageByID_cex :
    listStarts "ABC1".data cRec.id.data = false
    ∧ getTriageByID [cRec] "ABC1" = .ok cRec := by
  constructor
  · decide
  · rfl

/-- Claim C4 as amended: exact (case-sensitive) match first — a record
whose id equals the input is returned even when the input is also a
proper prefix of other ids; otherwise an ASCII-case-insensitive prefix
match (SQLite default `LIKE`) is attempted against all ids, where zero
matches yield a not-found error, exactly one match returns that
record, and more than one yields an ambiguous-ID error naming all
matching ids.  Stated for wildcard-free inputs (`%`/`_` in the input
would act as `LIKE` wildcards) and stores with distinct record ids. -/
theorem getTriageByID_resolution (tr : List Triage) (id : String)
    (hN : (tr.map (fun t => t.id)).Nodup)
    (hw : ∀ c ∈ id.data, isWild c = false) :
    (∀ ex ∈ tr, ex.id = id → getTriageByID tr id = .ok ex)
    ∧ ((∀ t ∈ tr, t.id ≠ id) →
        (tr.filter (fun t => listStarts (lowerL id.data) (lowerL t.id.data)) = [] →
          getTriageByID tr id = .error (.notFound id))
        ∧ (∀ u, tr.filter (fun t => listStarts (lowerL id.data) (lowerL t.id.data)) = [u] →
            getTriageByID tr id = .ok u)
        ∧ (∀ u v rest,
            tr.filter (fun t => listStarts (lowerL id.data) (lowerL t.id.data))
              = u :: v :: rest →
            getTriageByID tr id
              = .error (.ambiguousId id ((u :: v :: rest).map (fun t => t.id))))) := by
  have hfilter : tr.filter (fun t => likeMatch (id ++ "%").data t.id.data)
      = tr.filter (fun t => listStarts (lowerL id.data) (lowerL t.id.data)) := by
    apply List.filter_congr
    intro t _
    rw [show (id ++ "%").data = id.data ++ ['%'] from by simp [String.data_append],
      likeMatch_startPat id.data hw]
  constructor
  · intro ex hex hid
    have hx : getTriageByExactID tr id = some ex := by
      unfold getTriageByExactID
      rw [← hid]
      exact find_key_of_nodup (fun t => t.id) hN hex
    unfold getTriageByID
    rw [hx]
  · intro hno
    have hx : getTriageByExactID tr id = none := by
      unfold getTriageByExactID
      rw [List.find?_eq_none]
      intro t ht
      simpa using hno t ht
    refine ⟨?_, ?_, ?_⟩
    · intro hf
      unfold getTriageByID
      rw [hx, hfilter, hf]
    · intro u hf
      unfold getTriageByID
      rw [hx, hfilter, hf]
    · intro u v rest hf
      unfold getTriageByID
      rw [hx, hfilter, hf]

/-- Witness for claim C4 as amended: with records `abc123` and
`abc456`, resolving `abc` is ambiguous naming both, resolving `abc1`
returns `abc123` uniquely, and resolving `abc123` returns it via exact
match. -/
theorem getTriageByID_resolution_witness :
    getTriageByID cTr2 "abc" = .error (.ambiguousId "abc" ["abc123", "abc456"])
    ∧ getTriageByID cTr2 "abc1" = .ok (mkTriage "abc123" "t1" "a@x.com" "pending" none)
    ∧ getTriageByID cTr2 "abc123" = .ok (mkTriage "abc123" "t1" "a@x.com" "pending" none) := by
  refine ⟨?_, ?_, ?_⟩
  · exact ((getTriageByID_resolution cTr2 "abc" (by decide) (by decide)).2 (by decide)).2.2
      (mkTriage "abc123" "t1" "a@x.com" "pending" none)
      (mkTriage "abc456" "t2" "a@x.com" "pending" none) [] (by decide)
  · exact ((getTriageByID_resolution cTr2 "abc1" (by decide) (by decide)).2 (by decide)).2.1
      (mkTriage "abc123" "t1" "a@x.com" "pending" none) (by decide)
  · exact (getTriageByID_resolution cTr2 "abc123" (by decide) (by decide)).1
      (mkTriage "abc123" "t1" "a@x.com" "pending" none) (by decide) rfl

/-- Claim C1 counterexample: `UntriagedThreads` does not return only
the thread groups without a triage row.  In `exStale` the thread
`(t1, a@x.com)` has a triage row, yet it is returned, because the
`HAVING` clause also admits triaged threads whose `latest_date`
snapshot is older than the thread's newest mail. -/
theorem untriagedThreads_cex :
    exStale.triage.any (fun t => t.threadId = "t1" ∧ t.account = "a@x.com") = true
    ∧ (untriagedThreads exStale "" 0).map (fun th => (th.threadId, th.account))
        = [("t1", "a@x.com")] := by
  constructor
  · decide
  · rfl

/-- Claim C1 as amended: for every store, account filter and limit,
`UntriagedThreads` returns exactly the thread groups that either have
no triage row at all or whose triage row carries a `latest_date`
snapshot strictly older than the thread's latest message date (stale
triage), ordered by latest message date descending and truncated to
the limit when it is positive; a triaged thread therefore reappears
once mail newer than its snapshot arrives.  Stated for stores
satisfying the v1 uniqueness constraint on `(thread_id, account)`. -/
theorem untriagedThreads_charact (s : DBState) (acc : String) (limit : Int) (th : Thread)
    (hU : (s.triage.map (fun t => (t.threadId, t.account))).Nodup) :
    (th ∈ untriagedThreads s acc 0 ↔
      (acc = "" ∨ th.account = acc)
      ∧ (∃ e ∈ s.emails, e.threadId = th.threadId ∧ e.account = th.account)
      ∧ th = threadAgg (accFilter s.emails acc) (th.threadId, th.account)
      ∧ ((∀ t ∈ s.triage, ¬ (t.threadId = th.threadId ∧ t.account = th.account))
         ∨ (∃ t ∈ s.triage, t.threadId = th.threadId ∧ t.account = th.account
              ∧ ∃ d, t.latestDate = some d ∧ strLt d th.latestDate = true)))
    ∧ List.Sorted dateGe (untriagedThreads s acc 0)
    ∧ (0 < limit → untriagedThreads s acc limit = (untriagedThreads s acc 0).take limit.toNat) := by
  have h0 : untriagedThreads s acc 0 = untriagedBase s acc := by
    unfold untriagedThreads
    rw [if_neg (lt_irrefl 0)]
  have hkeep : untriagedKeep s.triage th = true ↔
      ((∀ t ∈ s.triage, ¬ (t.threadId = th.threadId ∧ t.account = th.account))
       ∨ (∃ t ∈ s.triage, t.threadId = th.threadId ∧ t.account = th.account
            ∧ ∃ d, t.latestDate = some d ∧ strLt d th.latestDate = true)) := by
    constructor
    · intro h
      cases hfind : s.triage.find?
          (fun t => t.threadId = th.threadId ∧ t.account = th.account) with
      | none =>
        left
        have hn := List.find?_eq_none.mp hfind
        intro t ht
        simpa using hn t ht
      | some t =>
        right
        have hmem := List.mem_of_find?_eq_some hfind
        have hp := List.find?_some hfind
        simp only [decide_eq_true_eq] at hp
        have hval : untriagedKeep s.triage th
            = (match t.latestDate with
               | none => false
               | some d => strLt d th.latestDate) := by
          unfold untriagedKeep
          rw [hfind]
        cases hd : t.latestDate with
        | none =>
          rw [hval, hd] at h
          simp at h
        | some d =>
          rw [hval, hd] at h
          exact ⟨t, hmem, hp.1, hp.2, d, hd, by simpa using h⟩
    · intro h
      rcases h with hnone | ⟨t, ht, h1, h2, d, hd, hlt⟩
      · unfold untriagedKeep
        rw [List.find?_eq_none.mpr (fun t ht => by simpa using hnone t ht)]
      · have hfind : s.triage.find?
            (fun y => y.threadId = th.threadId ∧ y.account = th.account) = some t := by
          have hk := find_key_of_nodup (fun t : Triage => (t.threadId, t.account)) hU ht
          have hpe : (fun y : Triage =>
              decide ((y.threadId, y.account) = (t.threadId, t.account)))
              = (fun y : Triage =>
                  decide (y.threadId = th.threadId ∧ y.account = th.account)) := by
            funext y
            exact decide_eq_decide.mpr (by simp [Prod.ext_iff, h1, h2])
          rw [hpe] at hk
          exact hk
        have hval : untriagedKeep s.triage th
            = (match t.latestDate with
               | none => false
               | some d => strLt d th.latestDate) := by
          unfold untriagedKeep
          rw [hfind]
        rw [hval, hd]
        exact hlt
  refine ⟨?_, ?_, ?_⟩
  · rw [h0]
    unfold untriagedBase
    rw [(List.perm_insertionSort dateGe _).mem_iff, List.mem_filter, List.mem_map]
    constructor
    · rintro ⟨⟨k, hk, hth⟩, hkp⟩
      have hid : th.threadId = k.1 := by rw [← hth]; rfl
      have hac : th.account = k.2 := by rw [← hth]; rfl
      rcases mem_threadKeys.mp hk with ⟨e, he, he1, he2⟩
      have hes : e ∈ s.emails ∧ (acc = "" ∨ e.account = acc) := by
        unfold accFilter at he
        by_cases hacc : acc = ""
        · rw [if_pos hacc] at he
          exact ⟨he, Or.inl hacc⟩
        · rw [if_neg hacc] at he
          rw [List.mem_filter] at he
          exact ⟨he.1, Or.inr (by simpa using he.2)⟩
      refine ⟨?_, ⟨e, hes.1, by rw [he1, ← hid], by rw [he2, ← hac]⟩, ?_, hkeep.mp hkp⟩
      · rcases hes.2 with h | h
        · exact Or.inl h
        · exact Or.inr (by rw [hac, ← he2, h])
      · rw [← hth]
        rfl
    · rintro ⟨hacc, ⟨e, he, he1, he2⟩, hth, hrest⟩
      refine ⟨⟨(th.threadId, th.account), ?_, hth.symm⟩, hkeep.mpr hrest⟩
      apply mem_threadKeys.mpr
      refine ⟨e, ?_, he1, he2⟩
      unfold accFilter
      rcases hacc with h | h
      · rw [if_pos h]
        exact he
      · by_cases hA : acc = ""
        · rw [if_pos hA]
          exact he
        · rw [if_neg hA]
          exact List.mem_filter.mpr ⟨he, by simp [he2, h]⟩
  · rw [h0]
    unfold untriagedBase
    haveI : IsTotal Thread dateGe := ⟨fun a b => by
      unfold dateGe strLe
      exact charsLe_total _ _⟩
    haveI : IsTrans Thread dateGe := ⟨fun a b c h1 h2 => by
      unfold dateGe strLe at h1 h2 ⊢
      exact charsLe_trans _ _ _ h2 h1⟩
    exact List.sorted_insertionSort dateGe _
  · intro hl
    rw [h0]
    unfold untriagedThreads
    rw [if_pos hl]

/-- Witness for claim C1 as amended: in `exStale` the limited query is
the truncation of the unlimited one. -/
theorem untriagedThreads_charact_witness :
    untriagedThreads exStale "" 5 = (untriagedThreads exStale "" 0).take (Int.toNat 5) :=
  (untriagedThreads_charact exStale "" 5
    (threadAgg exStale.emails ("t1", "a@x.com")) (by decide)).2.2 (by decide)

/-- Claim C7: in a v2-mode store, `threadsWithNewMail()` returns
exactly the threads that have a triage ref and whose most recent
message fetch timestamp is strictly newer than the ref's `created_at`;
a thread whose ref exists but with no message fetched after the ref's
creation is not returned.  Stated for stores satisfying the v2
uniqueness constraint on `(thread_id, account)`. -/
theorem threadsWithNewEmails_charact (s : DBStateV2) (th : Thread)
    (hN : (s.refs.map (fun r => (r.threadId, r.account))).Nodup) :
    th ∈ threadsWithNewEmails s ↔
      ∃ r ∈ s.refs, r.threadId = th.threadId ∧ r.account = th.account
        ∧ (∃ e ∈ s.emails, e.threadId = th.threadId ∧ e.account = th.account)
        ∧ strLt r.createdAt (maxFetched s.emails th.threadId th.account) = true
        ∧ th = { threadAgg s.emails (th.threadId, th.account) with triageRef := some r } := by
  unfold threadsWithNewEmails
  rw [List.mem_filterMap]
  constructor
  · rintro ⟨k, hk, hsome⟩
    cases hfind : s.refs.find? (fun r => r.threadId = k.1 ∧ r.account = k.2) with
    | none =>
      have : newMailRow s k = none := by
        unfold newMailRow
        rw [hfind]
      rw [this] at hsome
      exact absurd hsome (by simp)
    | some r =>
      have hval : newMailRow s k
          = (if strLt r.createdAt (maxFetched s.emails k.1 k.2) then
              some { threadAgg s.emails k with triageRef := some r }
            else none) := by
        unfold newMailRow
        rw [hfind]
      rw [hval] at hsome
      by_cases hc : strLt r.createdAt (maxFetched s.emails k.1 k.2) = true
      · rw [if_pos hc] at hsome
        have hth : { threadAgg s.emails k with triageRef := some r } = th :=
          Option.some.inj hsome
        have hid : th.threadId = k.1 := by rw [← hth]; rfl
        have hac : th.account = k.2 := by rw [← hth]; rfl
        have hp := List.find?_some hfind
        simp only [decide_eq_true_eq] at hp
        rcases mem_threadKeys.mp hk with ⟨e, he, he1, he2⟩
        refine ⟨r, List.mem_of_find?_eq_some hfind, by rw [hp.1, hid],
          by rw [hp.2, hac], ⟨e, he, by rw [he1, hid], by rw [he2, hac]⟩, ?_, ?_⟩
        · rw [hid, hac]
          exact hc
        · rw [← hth]
          rfl
      · rw [if_neg hc] at hsome
        exact absurd hsome (by simp)
  · rintro ⟨r, hr, h1, h2, ⟨e, he, he1, he2⟩, hc, hth⟩
    refine ⟨(th.threadId, th.account), mem_threadKeys.mpr ⟨e, he, he1, he2⟩, ?_⟩
    have hfind : s.refs.find?
        (fun y => y.threadId = th.threadId ∧ y.account = th.account) = some r := by
      have hk := find_key_of_nodup (fun r : TriageRef => (r.threadId, r.account)) hN hr
      have hpe : (fun y : TriageRef =>
          decide ((y.threadId, y.account) = (r.threadId, r.account)))
          = (fun y : TriageRef =>
              decide (y.threadId = th.threadId ∧ y.account = th.account)) := by
        funext y
        exact decide_eq_decide.mpr (by simp [Prod.ext_iff, h1, h2])
      rw [hpe] at hk
      exact hk
    have hval : newMailRow s (th.threadId, th.account)
        = (if strLt r.createdAt (maxFetched s.emails th.threadId th.account) then
            some { threadAgg s.emails (th.threadId, th.account) with triageRef := some r }
          else none) := by
      unfold newMailRow
      rw [hfind]
    rw [hval, if_pos hc, ← hth]

/-- Witness for claim C7: in `sNew` the thread `t1` was triaged at
`2024-01-15` and a message was fetched at `2024-02-02`, so it is
reported as having new mail, carrying its ref. -/
theorem threadsWithNewEmails_charact_witness :
    ({ threadAgg sNew.emails ("t1", "a@x.com") with
        triageRef := some { threadId := "t1", account := "a@x.com", beadId := "bd-1"
                            createdAt := "2024-01-15T00:00:00Z" } } : Thread)
      ∈ threadsWithNewEmails sNew :=
  (threadsWithNewEmails_charact sNew _ (by decide)).mpr
    ⟨{ threadId := "t1", account := "a@x.com", beadId := "bd-1"
       createdAt := "2024-01-15T00:00:00Z" }, by decide, rfl, rfl,
     ⟨mkEmail "m1" "a@x.com" "t1" "2024-02-01T00:00:00Z" "2024-02-02T00:00:00Z",
      by decide, rfl, rfl⟩, by decide, rfl⟩

/-- Claim C10 counterexample: `UntriagedCount` counts distinct values
of `thread_id || '|' || account`, not distinct pairs; in `exBar` the
two distinct untriaged pairs `(a|b, c)` and `(a, b|c)` encode to the
same string, so the count is 1 while there are 2 distinct pairs. -/
theorem untriagedCount_cex :
    untriagedCount exBar = 1
    ∧ (((exBar.emails.filter (fun e =>
          ¬ exBar.triage.any (fun t => t.threadId = e.threadId ∧ t.account = e.account))).map
            (fun e => (e.threadId, e.account))).dedup).length = 2 := by
  constructor
  · rfl
  · rfl

/-- Claim C10 as amended: provided no thread id contains the `'|'`
separator, `UntriagedCount` equals the number of distinct
`(thread_id, account)` pairs that have no triage row at all; a pair
with a triage row is never counted even when new mail arrived after
the triage snapshot, so the count can be strictly smaller than the
length of the untriaged listing — as it is in `exStale` (0 < 1). -/
theorem untriagedCount_charact (s : DBState)
    (hbar : ∀ e ∈ s.emails, '|' ∉ e.threadId.data) :
    untriagedCount s
      = (((s.emails.filter (fun e =>
            ¬ s.triage.any (fun t => t.threadId = e.threadId ∧ t.account = e.account))).map
              (fun e => (e.threadId, e.account))).dedup).length
    ∧ untriagedCount exStale < (untriagedThreads exStale "" 0).length := by
  constructor
  · unfold untriagedCount
    have hinj : ∀ p ∈ (s.emails.filter (fun e =>
          ¬ s.triage.any (fun t => t.threadId = e.threadId ∧ t.account = e.account))).map
            (fun e => (e.threadId, e.account)),
        ∀ q ∈ (s.emails.filter (fun e =>
          ¬ s.triage.any (fun t => t.threadId = e.threadId ∧ t.account = e.account))).map
            (fun e => (e.threadId, e.account)),
        (fun p : String × String => p.1 ++ "|" ++ p.2) p
          = (fun p : String × String => p.1 ++ "|" ++ p.2) q → p = q := by
      rintro p hp q hq heq
      rcases List.mem_map.mp hp with ⟨e, he, hpe⟩
      rcases List.mem_map.mp hq with ⟨f, hf, hqf⟩
      have h1 : '|' ∉ p.1.data := by
        rw [← hpe]
        exact hbar e (List.mem_filter.mp he).1
      have h2 : '|' ∉ q.1.data := by
        rw [← hqf]
        exact hbar f (List.mem_filter.mp hf).1
      have := barEncode_inj h1 h2 heq
      exact Prod.ext this.1 this.2
    have hlen := dedup_map_length (fun p : String × String => p.1 ++ "|" ++ p.2)
      ((s.emails.filter (fun e =>
          ¬ s.triage.any (fun t => t.threadId = e.threadId ∧ t.account = e.account))).map
            (fun e => (e.threadId, e.account))) hinj
    rw [List.map_map] at hlen
    exact hlen
  · decide

/-- Witness for claim C10 as amended: on `exStale`, whose thread ids
are separator-free, the count equals the number of distinct untriaged
pairs. -/
theorem untriagedCount_charact_witness :
    untriagedCount exStale
      = (((exStale.emails.filter (fun e =>
            ¬ exStale.triage.any (fun t => t.threadId = e.threadId ∧ t.account = e.account))).map
              (fun e => (e.threadId, e.account))).dedup).length :=
  (untriagedCount_charact exStale (by decide)).1

end Mailbeads
